import Mathlib

/-!
Verification development for the PF2e extraction / search pipeline
(`pf2_extract_v6.py` and `pf2_search_v5.py`).

The Python sources are shallowly embedded: dictionaries parsed from JSON
become the `JsonVal` tree, SQLite tables become ordered lists of rows
(SQLite without ORDER BY returns rows in insertion order), Python strings
become Lean `String`s.  The Unicode tables consulted by the source
(`unicodedata.normalize('NFD', ..)`, `str.lower()`, `str.isalnum()`) are
modelled by explicit finite tables covering the ASCII and Latin-1
repertoire the corpus uses; outside that repertoire the functions act as
the identity, mirroring the library behaviour on unlisted code points.
-/

namespace PF2

/-! ### Character-level models -/

/-- SQLite `LOWER()` folds ASCII letters only. -/
def asciiLowerChar (c : Char) : Char :=
  if 65 ≤ c.toNat ∧ c.toNat ≤ 90 then Char.ofNat (c.toNat + 32) else c

/-- Simple lowercase mapping used by Python `str.lower()`, restricted to the
ASCII + Latin-1 letters (plus `Ÿ`, `Œ`) that occur in the corpus. -/
def lowerTable : List (Char × Char) :=
  [('A', 'a'), ('B', 'b'), ('C', 'c'), ('D', 'd'), ('E', 'e'), ('F', 'f'),
   ('G', 'g'), ('H', 'h'), ('I', 'i'), ('J', 'j'), ('K', 'k'), ('L', 'l'),
   ('M', 'm'), ('N', 'n'), ('O', 'o'), ('P', 'p'), ('Q', 'q'), ('R', 'r'),
   ('S', 's'), ('T', 't'), ('U', 'u'), ('V', 'v'), ('W', 'w'), ('X', 'x'),
   ('Y', 'y'), ('Z', 'z'),
   ('À', 'à'), ('Á', 'á'), ('Â', 'â'), ('Ã', 'ã'), ('Ä', 'ä'), ('Å', 'å'),
   ('Æ', 'æ'), ('Ç', 'ç'), ('È', 'è'), ('É', 'é'), ('Ê', 'ê'), ('Ë', 'ë'),
   ('Ì', 'ì'), ('Í', 'í'), ('Î', 'î'), ('Ï', 'ï'), ('Ð', 'ð'), ('Ñ', 'ñ'),
   ('Ò', 'ò'), ('Ó', 'ó'), ('Ô', 'ô'), ('Õ', 'õ'), ('Ö', 'ö'), ('Ø', 'ø'),
   ('Ù', 'ù'), ('Ú', 'ú'), ('Û', 'û'), ('Ü', 'ü'), ('Ý', 'ý'), ('Þ', 'þ'),
   ('Ÿ', 'ÿ'), ('Œ', 'œ')]

/-- One character of Python `str.lower()` (modelled table). -/
def pyLowerChar (c : Char) : Char :=
  match lowerTable.find? (fun p => p.1 == c) with
  | some p => p.2
  | none => c

/-- Canonical (NFD) decompositions of the precomposed Latin letters in the
modelled repertoire, as used by `unicodedata.normalize('NFD', text)`. -/
def nfdTable : List (Char × List Char) :=
  [('À', ['A', '̀']), ('Á', ['A', '́']), ('Â', ['A', '̂']),
   ('Ã', ['A', '̃']), ('Ä', ['A', '̈']), ('Å', ['A', '̊']),
   ('Ç', ['C', '̧']),
   ('È', ['E', '̀']), ('É', ['E', '́']), ('Ê', ['E', '̂']),
   ('Ë', ['E', '̈']),
   ('Ì', ['I', '̀']), ('Í', ['I', '́']), ('Î', ['I', '̂']),
   ('Ï', ['I', '̈']),
   ('Ñ', ['N', '̃']),
   ('Ò', ['O', '̀']), ('Ó', ['O', '́']), ('Ô', ['O', '̂']),
   ('Õ', ['O', '̃']), ('Ö', ['O', '̈']),
   ('Ù', ['U', '̀']), ('Ú', ['U', '́']), ('Û', ['U', '̂']),
   ('Ü', ['U', '̈']),
   ('Ý', ['Y', '́']), ('Ÿ', ['Y', '̈']),
   ('à', ['a', '̀']), ('á', ['a', '́']), ('â', ['a', '̂']),
   ('ã', ['a', '̃']), ('ä', ['a', '̈']), ('å', ['a', '̊']),
   ('ç', ['c', '̧']),
   ('è', ['e', '̀']), ('é', ['e', '́']), ('ê', ['e', '̂']),
   ('ë', ['e', '̈']),
   ('ì', ['i', '̀']), ('í', ['i', '́']), ('î', ['i', '̂']),
   ('ï', ['i', '̈']),
   ('ñ', ['n', '̃']),
   ('ò', ['o', '̀']), ('ó', ['o', '́']), ('ô', ['o', '̂']),
   ('õ', ['o', '̃']), ('ö', ['o', '̈']),
   ('ù', ['u', '̀']), ('ú', ['u', '́']), ('û', ['u', '̂']),
   ('ü', ['u', '̈']),
   ('ý', ['y', '́']), ('ÿ', ['y', '̈'])]

/-- NFD decomposition of one character (identity outside the table). -/
def nfdChar (c : Char) : List Char :=
  match nfdTable.find? (fun p => p.1 == c) with
  | some p => p.2
  | none => [c]

/-- Unicode category `Mn` test, modelled over the combining diacritical
marks block U+0300 - U+036F (the only `Mn` characters NFD can produce on
the modelled repertoire). -/
def isMnB (c : Char) : Bool :=
  decide (768 ≤ c.toNat ∧ c.toNat ≤ 879)

/-- The character pipeline of `normalize_text` (pf2_search_v5.py lines
37-42): NFD-decompose, drop `Mn` marks, lowercase. -/
def normChars (l : List Char) : List Char :=
  (((l.map nfdChar).flatten).filter (fun c => !isMnB c)).map pyLowerChar

/-- `normalize_text` of pf2_search_v5.py. -/
def normalize_text (s : String) : String :=
  String.mk (normChars s.toList)

/-- Python `str.lower()` over a whole string. -/
def pyLowerStr (s : String) : String := String.mk (s.toList.map pyLowerChar)

/-- SQLite `LOWER()` over a whole string. -/
def asciiLowerStr (s : String) : String := String.mk (s.toList.map asciiLowerChar)

/-- Python whitespace test used by `str.strip()` (space, tab, newline,
carriage return, vertical tab, form feed). -/
def pyIsSpace (c : Char) : Bool :=
  c == ' ' || c == '\t' || c == '\n' || c == '\r' || c.toNat == 11 || c.toNat == 12

/-- Python `str.strip()`. -/
def pyStrip (s : String) : String :=
  String.mk (((s.toList.dropWhile pyIsSpace).reverse.dropWhile pyIsSpace).reverse)

/-- Python `str.isalnum()` per character, on the modelled repertoire
(ASCII alphanumerics plus the Latin-1 letters; U+00D7 and U+00F7 are the
two non-letters in that range). -/
def pyIsAlnum (c : Char) : Bool :=
  c.isAlphanum ||
    decide (192 ≤ c.toNat ∧ c.toNat ≤ 255 ∧ c.toNat ≠ 215 ∧ c.toNat ≠ 247)

/-- Python substring test `needle in hay`. -/
def containsList (hay needle : List Char) : Bool :=
  match hay with
  | [] => needle.isEmpty
  | _ :: t => needle.isPrefixOf hay || containsList t needle

/-- Python `sub in s` on strings. -/
def pyContains (s sub : String) : Bool := containsList s.toList sub.toList

/-- Python `s.startswith(q)`. -/
def pyStartsWith (s q : String) : Bool := q.toList.isPrefixOf s.toList

/-- SQL LIKE matcher, fuelled so that it is structurally recursive (each
step consumes at least one character of pattern or subject, so
`pattern.length + s.length + 1` fuel is exact).  Comparison of plain
characters is ASCII-case-insensitive, as in SQLite's default LIKE. -/
def likeMatchF : Nat → List Char → List Char → Bool
  | 0, _, _ => false
  | _ + 1, [], s => s.isEmpty
  | f + 1, p :: ps, s =>
    if p = '%' then
      likeMatchF f ps s ||
        (match s with
         | [] => false
         | _ :: cs => likeMatchF f (p :: ps) cs)
    else
      match s with
      | [] => false
      | c :: cs =>
        (p == '_' || asciiLowerChar p == asciiLowerChar c) && likeMatchF f ps cs

/-- SQL `s LIKE pattern`. -/
def likeMatch (pattern s : List Char) : Bool :=
  likeMatchF (pattern.length + s.length + 1) pattern s

/-- Python `a or b` on strings (empty string is falsy). -/
def strOr (a b : String) : String := if a = "" then b else a

/-! ### Identifier resolver and annotation parser (pf2_extract_v6.py) -/

/-- Python `str.split("-")`. -/
def splitDash : List Char → List (List Char)
  | [] => [[]]
  | c :: cs =>
    match splitDash cs with
    | [] => [[]]
    | b :: bs => if c = '-' then [] :: b :: bs else (c :: b) :: bs

/-- `looks_like_uuid` of pf2_extract_v6.py (16 alphanumeric characters). -/
def looks_like_uuid (s : List Char) : Bool :=
  s.length == 16 && s.all pyIsAlnum

/-- Identifier resolution from a file-name stem (pf2_extract_v6.py lines
185-200). -/
def resolveUuid (stem : String) : String :=
  let parts := splitDash stem.toList
  if 2 ≤ parts.length ∧ looks_like_uuid (parts.getLastD []) = true then
    String.mk (parts.getLastD [])
  else if parts.length = 1 ∧ looks_like_uuid (parts.headD []) = true then
    String.mk (parts.headD [])
  else stem

/-- Does the line start with the given literal?  Models an anchored
`^label` regex search at line granularity. -/
def litStarts (l marker : String) : Bool := marker.toList.isPrefixOf l.toList

/-- Value of the first `label ...` line (regex `^label\s*(.+)$` with
`re.MULTILINE`, modelled at line granularity: the first line starting with
the label, with the remainder stripped). -/
def labelValue (label : String) (lines : List String) : String :=
  match lines.find? (fun l => litStarts l label) with
  | some l => pyStrip (String.mk (l.toList.drop label.toList.length))
  | none => ""

/-- Lines strictly after the first line starting with `marker`. -/
def afterMarker (marker : String) : List String → Option (List String)
  | [] => none
  | l :: ls => if litStarts l marker then some ls else afterMarker marker ls

/-- Lines before the first stop-marker line. -/
def untilMarkers (stops : List String) (lines : List String) : List String :=
  lines.takeWhile (fun l => !(stops.any (fun m => litStarts l m)))

/-- Rejoin lines with newlines (inverse of the line split). -/
def joinLines : List String → String
  | [] => ""
  | [l] => l
  | l :: ls => l ++ "\n" ++ joinLines ls

/-- A delimited description section: the text between the first
`startMark` line and the first following stop line (or end of input),
stripped.  Models `startMark\s*(.+?)(?=stop1|stop2|$)` with `re.DOTALL`,
the markers sitting on lines of their own as the file format prescribes. -/
def descSection (startMark : String) (stops : List String) (lines : List String) : String :=
  match afterMarker startMark lines with
  | some rest => pyStrip (joinLines (untilMarkers stops rest))
  | none => ""

/-- `ItemTranslation` of pf2_extract_v6.py. -/
structure ItemTranslation where
  id : String
  name_en : String
  name_fr : String
  desc_en : String
  desc_fr : String
deriving Repr

/-- `Translation` of pf2_extract_v6.py; the `items` dict is modelled as an
insertion-ordered association list. -/
structure Translation where
  uuid : String
  pack : String
  name_en : String
  name_fr : String
  desc_en : String
  desc_fr : String
  status : String
  items : List (String × ItemTranslation)
deriving Repr

/-- Does a line open an item block (`re.split(r'(?=^ID:\s)')`)? -/
def isIdLine (l : String) : Bool := litStarts l "ID: "

/-- Helper for `splitBlocks`. -/
def splitBlocksAux (acc : List String) : List String → List (List String)
  | [] => [acc.reverse]
  | l :: ls =>
    if isIdLine l then acc.reverse :: splitBlocksAux [l] ls
    else splitBlocksAux (l :: acc) ls

/-- Split the items section into blocks, one per `ID:` line; the leading
chunk before the first `ID:` line is kept (and later dropped for lack of
an identifier), as with the zero-width `re.split`. -/
def splitBlocks (ls : List String) : List (List String) := splitBlocksAux [] ls

/-- The lines of the `----- Items ----` section, up to a rule of at least
ten dashes. -/
def itemsLines (lines : List String) : List String :=
  match afterMarker "----- Items -" lines with
  | some rest => rest.takeWhile (fun l => !(litStarts l "----------"))
  | none => []

/-- Parse one item block (pf2_extract_v6.py lines 240-269). -/
def parseItemBlock (b : List String) : Option (String × ItemTranslation) :=
  let bid := labelValue "ID:" b
  if bid = "" then none
  else
    let nen := labelValue "Name:" b
    let nfr := strOr (labelValue "Nom:" b) nen
    let den := descSection "-- Desc (en) --" ["-- Desc (fr) --", "-- End desc ---"] b
    let dfr := descSection "-- Desc (fr) --" ["-- End desc ---"] b
    some (bid, { id := bid, name_en := nen, name_fr := nfr, desc_en := den, desc_fr := dfr })

/-- Dict insert `items[item_id] = ...` (later writes overwrite in place). -/
def upsertItem (k : String) (v : ItemTranslation) :
    List (String × ItemTranslation) → List (String × ItemTranslation)
  | [] => [(k, v)]
  | p :: ps => if p.1 == k then (k, v) :: ps else p :: upsertItem k v ps

/-- Parse the whole items section into the items dict. -/
def parseItems (lines : List String) : List (String × ItemTranslation) :=
  ((splitBlocks (itemsLines lines)).filterMap parseItemBlock).foldl
    (fun m p => upsertItem p.1 p.2 m) []

/-- `parse_htm_file` of pf2_extract_v6.py, over the file-name stem, the
containing pack name and the file content given as its list of lines. -/
def parse_htm_file (stem pack_name : String) (lines : List String) : Option Translation :=
  let uuid := resolveUuid stem
  let name_en := labelValue "Name:" lines
  let name_fr := labelValue "Nom:" lines
  let status := labelValue "État:" lines
  let desc_en := descSection "-- Desc (en) --" ["-- Desc (fr) --", "-- End desc ---"] lines
  let desc_fr := descSection "-- Desc (fr) --" ["-- End desc ---"] lines
  let items := parseItems lines
  if name_en = "" ∧ name_fr = "" then none
  else some { uuid := uuid, pack := pack_name, name_en := name_en,
              name_fr := strOr name_fr name_en, desc_en := desc_en,
              desc_fr := strOr desc_fr desc_en, status := status, items := items }

/-! ### JSON attribute trees and the type classifier -/

/-- Generic JSON value, the attribute tree of a mechanical record.
Objects are insertion-ordered association lists, as Python dicts are. -/
inductive JsonVal where
  | null
  | b (v : Bool)
  | num (n : Int)
  | str (s : String)
  | arr (xs : List JsonVal)
  | obj (fields : List (String × JsonVal))

/-- Python `d.get(k, default)` on a dict value (non-dicts yield the
default, as every read site guards with a dict default). -/
def jGetD (v : JsonVal) (k : String) (d : JsonVal) : JsonVal :=
  match v with
  | .obj fs =>
    match fs.find? (fun p => p.1 == k) with
    | some p => p.2
    | none => d
  | _ => d

/-- Python `k in v` (dict key membership, list element membership,
substring on strings; false elsewhere). -/
def pyIn (k : String) (v : JsonVal) : Bool :=
  match v with
  | .obj fs => fs.any (fun p => p.1 == k)
  | .arr xs => xs.any (fun x => match x with | .str s => s == k | _ => false)
  | .str s => containsList s.toList k.toList
  | _ => false

/-- Python `d[k] = v`: overwrite in place, or append a new key. -/
def jSetKey (k : String) (v : JsonVal) :
    List (String × JsonVal) → List (String × JsonVal)
  | [] => [(k, v)]
  | p :: ps => if p.1 == k then (k, v) :: ps else p :: jSetKey k v ps

/-- Read a string field with a default. -/
def jGetStr (v : JsonVal) (k : String) (d : String) : String :=
  match jGetD v k JsonVal.null with
  | .str s => s
  | _ => d

/-- `TYPE_MAP` of pf2_extract_v6.py (insertion order preserved). -/
def TYPE_MAP : List (String × String) :=
  [("npc", "créature"), ("creature", "créature"), ("character", "créature"),
   ("hazard", "danger"), ("spell", "sort"), ("feat", "don"), ("action", "action"),
   ("equipment", "équipement"), ("treasure", "trésor"), ("backpack", "conteneur"),
   ("weapon", "arme"), ("armor", "armure"), ("shield", "bouclier"),
   ("consumable", "consommable"), ("ancestry", "ascendance"), ("heritage", "héritage"),
   ("background", "historique"), ("class", "classe"), ("archetype", "archétype"),
   ("deity", "divinité"), ("effect", "effet"), ("condition", "état"),
   ("familiar", "familier"), ("vehicle", "véhicule")]

/-- `PACK_TYPE_MAP` of pf2_extract_v6.py (insertion order preserved). -/
def PACK_TYPE_MAP : List (String × String) :=
  [("pathfinder-bestiary", "créature"), ("bestiary", "créature"),
   ("pathfinder-monster-core", "créature"), ("monster-core", "créature"),
   ("npc", "créature"), ("hazards", "danger"), ("spells", "sort"),
   ("feats", "don"), ("actions", "action"), ("equipment", "équipement"),
   ("weapons", "arme"), ("armor", "armure"), ("consumables", "consommable"),
   ("ancestries", "ascendance"), ("heritages", "héritage"),
   ("backgrounds", "historique"), ("classes", "classe"), ("archetypes", "archétype"),
   ("deities", "divinité"), ("conditions", "état"), ("familiar", "familier"),
   ("vehicles", "véhicule"), ("animal-companions", "compagnon"), ("eidolons", "eidolon")]

/-- Dict lookup `m[k]` / `k in m` on a fixed string table. -/
def lookupStr (m : List (String × String)) (k : String) : Option String :=
  (m.find? (fun p => p.1 == k)).map (fun p => p.2)

/-- A raw mechanical record, as read from one Foundry JSON file.  The
fields mirror the keys the pipeline reads (`_id`, `name`, `type`,
`system`, `items`), with Python's `.get` defaults already applied. -/
structure RawItem where
  id : String
  name : String
  type : String
  system : JsonVal
  items : List JsonVal

/-- `detect_type_from_entry` of pf2_extract_v6.py (lines 95-108). -/
def detect_type_from_entry (entry : RawItem) : String :=
  match lookupStr TYPE_MAP entry.type with
  | some v => v
  | none =>
    let system := entry.system
    if pyIn "attributes" system && pyIn "hp" (jGetD system "attributes" (JsonVal.obj [])) then
      "créature"
    else if pyIn "traditions" system then "sort"
    else if pyIn "prerequisites" system then "don"
    else if pyIn "price" system then "équipement"
    else "autre"

/-- Python `str.replace(pat, rep)` (all occurrences, left to right),
fuelled so it is structurally recursive; one unit of fuel per input
character is exact since each step consumes at least one character. -/
def replaceF (pat rep : List Char) : Nat → List Char → List Char
  | 0, l => l
  | _ + 1, [] => []
  | f + 1, c :: cs =>
    if pat.isPrefixOf (c :: cs) then
      rep ++ replaceF pat rep f (List.drop (pat.length - 1) cs)
    else c :: replaceF pat rep f cs

/-- Python `s.replace(pat, rep)` on strings (non-empty pattern). -/
def replaceAll (s pat rep : String) : String :=
  if pat = "" then s
  else String.mk (replaceF pat.toList rep.toList s.toList.length s.toList)

/-- `detect_type_from_pack` of pf2_extract_v6.py (lines 110-115). -/
def detect_type_from_pack (pack_name : String) : String :=
  let pack_lower := replaceAll (replaceAll (pyLowerStr pack_name) ".json" "") "-srd" ""
  match PACK_TYPE_MAP.find? (fun p => containsList pack_lower.toList p.1.toList) with
  | some p => p.2
  | none => "autre"

/-! ### Reconciliation (`apply_translation` and entry assembly) -/

/-- Leading-literal chopper: `some rest` when `s` = `lit ++ rest`. -/
def chopLit (lit : List Char) (s : List Char) : Option (List Char) :=
  match lit, s with
  | [], rest => some rest
  | _ :: _, [] => none
  | a :: as, b :: bs => if a = b then chopLit as bs else none

/-- Attempt the journal cross-reference pattern
`@UUID[Compendium.pf2e.journals.JournalEntry.<seg>.JournalEntryPage.<page>]`
at the head of `s`, returning the captured page identifier. -/
def journalRefAt (s : List Char) : Option String :=
  match chopLit "@UUID[Compendium.pf2e.journals.JournalEntry.".toList s with
  | none => none
  | some rest =>
    let seg := rest.takeWhile (fun c => !(c == '.'))
    if seg.isEmpty then none
    else
      match chopLit ".JournalEntryPage.".toList (rest.drop seg.length) with
      | none => none
      | some rest2 =>
        let cap := rest2.takeWhile (fun c => !(c == ']'))
        if cap.isEmpty then none
        else
          match rest2.drop cap.length with
          | ']' :: _ => some (String.mk cap)
          | _ => none

/-- First (leftmost) occurrence of the journal cross-reference pattern
(`re.search` of pf2_extract_v6.py line 1021). -/
def findJournalRef : List Char → Option String
  | [] => none
  | c :: cs =>
    match journalRefAt (c :: cs) with
    | some r => some r
    | none => findJournalRef cs

/-- Result of `apply_translation`: the keys the function writes into the
mutated record dict, plus the (possibly mutated) embedded items. -/
structure AppliedItem where
  name_fr : String
  name_en : String
  description_fr : String
  translated : Bool
  trans_status : Option String
  has_journal : Bool
  items : List JsonVal

/-- Per-item translation step of `apply_translation` (lines 1029-1044). -/
def translateItem (tritems : List (String × ItemTranslation)) (it : JsonVal) : JsonVal :=
  match it with
  | JsonVal.obj fs =>
    let iid := jGetStr (JsonVal.obj fs) "_id" ""
    let nm := jGetStr (JsonVal.obj fs) "name" ""
    match (if iid = "" then none
           else (tritems.find? (fun p => p.1 == iid)).map (fun p => p.2)) with
    | some itr =>
      let fs1 := jSetKey "name_fr" (JsonVal.str itr.name_fr) fs
      let fs2 := jSetKey "name_en" (JsonVal.str (strOr itr.name_en nm)) fs1
      let fs3 := if itr.desc_fr = "" then fs2
                 else jSetKey "description_fr" (JsonVal.str itr.desc_fr) fs2
      JsonVal.obj (jSetKey "_translated" (JsonVal.b true) fs3)
    | none =>
      JsonVal.obj (jSetKey "_translated" (JsonVal.b false)
        (jSetKey "name_en" (JsonVal.str nm) (jSetKey "name_fr" (JsonVal.str nm) fs)))
  | _ => it

/-- `apply_translation` of pf2_extract_v6.py (lines 1000-1046).  The
journal map is the `journals` dict (page identifier to French text). -/
def apply_translation (entry : RawItem) (trans : Option Translation)
    (journals : List (String × String)) : AppliedItem :=
  match trans with
  | none =>
    { name_fr := entry.name, name_en := entry.name, description_fr := "",
      translated := false, trans_status := none, has_journal := false,
      items := entry.items }
  | some tr =>
    let jr : Option String :=
      if !journals.isEmpty && ["class", "ancestry", "archetype"].contains entry.type then
        match findJournalRef (strOr tr.desc_fr tr.desc_en).toList with
        | some pid => (journals.find? (fun p => p.1 == pid)).map (fun p => p.2)
        | none => none
      else none
    let desc := match jr with
      | some d => d
      | none => tr.desc_fr
    let hasJ := match jr with
      | some _ => true
      | none => false
    let items2 :=
      if !entry.items.isEmpty && !tr.items.isEmpty then
        entry.items.map (translateItem tr.items)
      else entry.items
    { name_fr := tr.name_fr, name_en := strOr tr.name_en entry.name,
      description_fr := desc, translated := true, trans_status := some tr.status,
      has_journal := hasJ, items := items2 }

/-- The canonical entry dict assembled per file by
`extract_foundry_with_translations` (lines 1109-1122). -/
structure Entry where
  id : String
  pack : String
  pack_type : String
  source : String
  translated : Bool
  name : String
  name_fr : String
  name_en : String
  description : String
  type : String
  system : JsonVal
  items : List JsonVal

/-- Type classification as composed in the extraction loop (lines
1101-1103): explicit-table / structural result first, pack-name heuristic
only when that yields `autre`. -/
def classifyType (entry : RawItem) (pack_name : String) : String :=
  let t := detect_type_from_entry entry
  if t == "autre" then detect_type_from_pack pack_name else t

/-- One iteration of the extraction loop for a parsed file (lines
1097-1122): look up the translation by identifier, classify, apply the
translation, assemble the canonical entry dict. -/
def buildEntry (translations : List (String × Translation))
    (journals : List (String × String)) (pack_name : String) (entry : RawItem) : Entry :=
  let trans := (translations.find? (fun p => p.1 == entry.id)).map (fun p => p.2)
  let entry_type := classifyType entry pack_name
  let a := apply_translation entry trans journals
  { id := entry.id, pack := pack_name, pack_type := entry_type,
    source := "foundry+pf2-fr", translated := a.translated,
    name := strOr a.name_fr entry.name,
    name_fr := strOr a.name_fr entry.name,
    name_en := strOr a.name_en entry.name,
    description := strOr a.description_fr "",
    type := entry.type, system := entry.system, items := a.items }

/-! ### Corpus persistence (`create_database`) -/

/-- One row of the `entries` table (pf2_extract_v6.py lines 1153-1158);
the serialized `data` payload is kept as the entry itself (the JSON
round-trip is modelled as the identity). -/
structure Row where
  id : String
  pack : String
  name_fr : String
  name_en : String
  type : String
  source : String
  translated : Bool
  data : Entry

/-- Projection of an entry onto its table row (the insert of lines
1174-1192; the full-text shadow table is not modelled). -/
def rowOf (e : Entry) : Row :=
  { id := e.id, pack := e.pack, name_fr := e.name_fr, name_en := e.name_en,
    type := e.pack_type, source := e.source, translated := e.translated, data := e }

/-- One insert attempt: the primary key `(pack, id)` rejects duplicates,
and the `sqlite3.IntegrityError` is swallowed (lines 1187-1195). -/
def insertStep (tbl : List Row) (e : Entry) : List Row :=
  let r := rowOf e
  if tbl.any (fun r0 => r0.pack == r.pack && r0.id == r.id) then tbl
  else tbl ++ [r]

/-- `create_database`: a fresh table is built by inserting every entry in
stream order (the database file is deleted first, so the fold starts from
the empty table). -/
def create_database (entries : List Entry) : List Row :=
  entries.foldl insertStep []

/-! ### Search engine (pf2_search_v5.py `search`) -/

/-- The dedup key `f"{entry._pack}:{entry._id}"` (line 1030/1053). -/
def entryKey (e : Entry) : String := e.pack ++ ":" ++ e.id

/-- Mutable state of one `search` call: the `seen_keys` set and the
scored `results` list, in insertion order. -/
structure SState where
  seen : List String
  results : List (Int × Entry)

/-- Append a scored entry unless its key was already seen. -/
def addNew (score : Int) (e : Entry) (st : SState) : SState :=
  if st.seen.contains (entryKey e) then st
  else { seen := entryKey e :: st.seen, results := st.results ++ [(score, e)] }

/-- The trait list `entry["system"]["traits"]["value"]` with `.get`
defaults (non-string elements are ignored). -/
def entryTraits (e : Entry) : List String :=
  match jGetD (jGetD e.system "traits" (JsonVal.obj [])) "value" (JsonVal.arr []) with
  | JsonVal.arr xs => xs.filterMap (fun x => match x with | JsonVal.str s => some s | _ => none)
  | _ => []

/-- The trait filter shared by both result-adding paths (lines 1025-1028
and 1040-1043): some trait must contain the filter, case-insensitively. -/
def traitOk (tf : Option String) (e : Entry) : Bool :=
  match tf with
  | none => true
  | some t => (entryTraits e).any (fun tr => pyContains (pyLowerStr tr) (pyLowerStr t))

/-- Loop body of `add_results` (lines 1018-1035). -/
def addResultsStep (tf : Option String) (score : Int) (st : SState) (row : Row) : SState :=
  if traitOk tf row.data then addNew score row.data st else st

/-- `add_results`: add every fetched row in table order. -/
def addResults (tf : Option String) (score : Int) (rows : List Row) (st : SState) : SState :=
  rows.foldl (addResultsStep tf score) st

/-- `add_entry_if_match` (lines 1037-1056): trait, type and pack filters,
then the dedup-checked append.  Note the type filter compares the raw
`type` field of the payload, not the `type` column. -/
def addEntryIfMatch (et pf tf : Option String) (score : Int) (e : Entry) (st : SState) : SState :=
  if !traitOk tf e then st
  else if (match et with | some t => !(e.type == t) | none => false) then st
  else if (match pf with
           | some p => !(pyContains (pyLowerStr e.pack) (pyLowerStr p))
           | none => false) then st
  else addNew score e st

/-- SQL `type = ?` clause of the tier queries. -/
def etOkSql (et : Option String) (r : Row) : Bool :=
  match et with
  | none => true
  | some t => r.type == t

/-- SQL `pack LIKE ?` clause of the tier queries (pattern `%pf%`). -/
def pfOkSql (pf : Option String) (r : Row) : Bool :=
  match pf with
  | none => true
  | some p => likeMatch ('%' :: (p.toList ++ ['%'])) r.pack.toList

/-- Rows a tier `SELECT` returns, in table (= insertion) order. -/
def sqlFilter (table : List Row) (pred : Row → Bool) (et pf : Option String) : List Row :=
  table.filter (fun r => pred r && etOkSql et r && pfOkSql pf r)

/-- Rows the accent-insensitive re-scan fetches (lines 1109-1112):
`WHERE type = ?` when a category filter is active, the whole table
otherwise. -/
def scanRows (table : List Row) (et : Option String) : List Row :=
  match et with
  | none => table
  | some t => table.filter (fun r => r.type == t)

/-- Loop body of the accent-insensitive re-scan (lines 1114-1138). -/
def scanStep (qnorm : String) (et pf tf : Option String) (st : SState) (row : Row) : SState :=
  let e := row.data
  let nfr := normalize_text e.name_fr
  let nen := normalize_text e.name_en
  if nfr == qnorm then addEntryIfMatch et pf tf 900 e st
  else if nen == qnorm then addEntryIfMatch et pf tf 850 e st
  else if pyStartsWith nfr qnorm then addEntryIfMatch et pf tf 400 e st
  else if pyStartsWith nen qnorm then addEntryIfMatch et pf tf 350 e st
  else if pyContains nfr qnorm then addEntryIfMatch et pf tf 100 e st
  else if pyContains nen qnorm then addEntryIfMatch et pf tf 50 e st
  else st

/-- String-list comparison by code point, Python `str` order. -/
def lexLe : List Char → List Char → Bool
  | [], _ => true
  | _ :: _, [] => false
  | a :: as, b :: bs =>
    if a.toNat < b.toNat then true
    else if a.toNat = b.toNat then lexLe as bs
    else false

/-- The sort key order of line 1140: ascending in
`(-score, name_fr.lower())`, i.e. descending score with ties broken by
ascending lowercased primary-language name. -/
def resLe (x y : Int × Entry) : Bool :=
  if y.1 < x.1 then true
  else if x.1 = y.1 then
    lexLe (pyLowerStr x.2.name_fr).toList (pyLowerStr y.2.name_fr).toList
  else false

/-- Stable insertion into a sorted list (the element goes before the
first element not strictly smaller, as Python's stable sort places it). -/
def insertRes (x : Int × Entry) : List (Int × Entry) → List (Int × Entry)
  | [] => [x]
  | y :: ys => if resLe x y then x :: y :: ys else y :: insertRes x ys

/-- `results.sort(key=lambda x: (-x[0], x[1].get("name_fr", "").lower()))`. -/
def sortResults (l : List (Int × Entry)) : List (Int × Entry) :=
  l.foldr insertRes []

/-- State after the six SQL ranking tiers (lines 1080-1102): exact,
prefix and substring matches on the lowercased name columns, French names
before English ones. -/
def tieredState (q : String) (table : List Row) (et pf tf : Option String) : SState :=
  let qlow := pyStrip (pyLowerStr q)
  let st : SState := ⟨[], []⟩
  let st := addResults tf 1000 (sqlFilter table (fun r => asciiLowerStr r.name_fr == qlow) et pf) st
  let st := addResults tf 950 (sqlFilter table (fun r => asciiLowerStr r.name_en == qlow) et pf) st
  let st := addResults tf 500 (sqlFilter table
    (fun r => likeMatch (qlow.toList ++ ['%']) (asciiLowerStr r.name_fr).toList) et pf) st
  let st := addResults tf 450 (sqlFilter table
    (fun r => likeMatch (qlow.toList ++ ['%']) (asciiLowerStr r.name_en).toList) et pf) st
  let st := addResults tf 200 (sqlFilter table
    (fun r => likeMatch ('%' :: (qlow.toList ++ ['%'])) (asciiLowerStr r.name_fr).toList) et pf) st
  let st := addResults tf 150 (sqlFilter table
    (fun r => likeMatch ('%' :: (qlow.toList ++ ['%'])) (asciiLowerStr r.name_en).toList) et pf) st
  st

/-- State after the optional accent-insensitive re-scan (lines
1104-1138), triggered when the tiers produced fewer than 5 results or
the query itself contains diacritics. -/
def scannedState (q : String) (table : List Row) (et pf tf : Option String) : SState :=
  let qlow := pyStrip (pyLowerStr q)
  let qnorm := normalize_text q
  let st := tieredState q table et pf tf
  if decide (st.results.length < 5) || !(qnorm == qlow) then
    (scanRows table et).foldl (scanStep qnorm et pf tf) st
  else st

/-- The ranked result list of `search` before the final `[:limit]`
truncation and score projection (lines 1008-1140, minus the identifier
fast path). -/
def searchRanked (q : String) (table : List Row) (et pf tf : Option String) :
    List (Int × Entry) :=
  sortResults (scannedState q table et pf tf).results

/-- The bare-identifier test of line 1059:
`len(query) >= 8 and query.replace("-", "").isalnum()`. -/
def uuidLike (q : String) : Bool :=
  decide (8 ≤ q.length) &&
    (let core := q.toList.filter (fun c => !(c == '-'))
     !core.isEmpty && core.all pyIsAlnum)

/-- `search` of pf2_search_v5.py: identifier fast path, then the ranked
tiers truncated to `limit`. -/
def search (q : String) (table : List Row) (et pf tf : Option String) (limit : Nat) :
    List Entry :=
  match (if uuidLike q then table.find? (fun r => r.id == q) else none) with
  | some r => [r.data]
  | none => ((searchRanked q table et pf tf).take limit).map (fun p => p.2)

/-! ### Idempotence of the normalization pipeline -/

/-- A character is `good` when one normalization step leaves it alone:
trivial decomposition, not a combining mark, already lowercase. -/
def goodChar (c : Char) : Bool :=
  (nfdChar c == [c]) && !isMnB c && (pyLowerChar c == c)

lemma goodChar_spec {c : Char} (h : goodChar c = true) :
    nfdChar c = [c] ∧ isMnB c = false ∧ pyLowerChar c = c := by
  simp only [goodChar, Bool.and_eq_true, beq_iff_eq, Bool.not_eq_true'] at h
  exact ⟨h.1.1, h.1.2, h.2⟩

lemma norm1_shape (c : Char) :
    normChars [c] = ((nfdChar c).filter (fun x => !isMnB x)).map pyLowerChar := by
  simp [normChars]

/-- Every character the pipeline emits is a fixed point of the pipeline. -/
lemma norm1_good (c : Char) : ∀ d ∈ normChars [c], goodChar d = true := by
  intro d hd
  rw [norm1_shape] at hd
  rcases h : nfdTable.find? (fun p => p.1 == c) with _ | p
  · have hnfd : nfdChar c = [c] := by simp [nfdChar, h]
    rw [hnfd] at hd
    by_cases hmn : isMnB c = true
    · simp [hmn] at hd
    · have hmn' : isMnB c = false := Bool.eq_false_iff.mpr hmn
      simp only [List.filter_cons, hmn', Bool.not_false, List.filter_nil, if_true,
        List.map_cons, List.map_nil, List.mem_singleton] at hd
      subst hd
      rcases h2 : lowerTable.find? (fun p => p.1 == c) with _ | q
      · have hpy : pyLowerChar c = c := by simp [pyLowerChar, h2]
        rw [hpy]
        simp [goodChar, hnfd, hmn', hpy]
      · have hqmem : q ∈ lowerTable := List.mem_of_find?_eq_some h2
        have hq1 : q.1 = c := by
          have := List.find?_some h2
          simpa using this
        have hlow : lowerTable.all
            (fun q => !(nfdChar q.1 == [q.1]) || goodChar q.2) = true := by decide
        have himp := List.all_eq_true.mp hlow q hqmem
        have hpy : pyLowerChar c = q.2 := by simp [pyLowerChar, h2]
        rw [hpy]
        have hfix : nfdChar q.1 = [q.1] := by rw [hq1]; exact hnfd
        simp only [hfix, beq_self_eq_true, Bool.not_true, Bool.false_or] at himp
        exact himp
  · have hmem : p ∈ nfdTable := List.mem_of_find?_eq_some h
    have hnfd : nfdChar c = p.2 := by simp [nfdChar, h]
    rw [hnfd] at hd
    have htab : nfdTable.all
        (fun p => ((p.2.filter (fun x => !isMnB x)).map pyLowerChar).all goodChar) = true := by
      decide
    exact List.all_eq_true.mp (List.all_eq_true.mp htab p hmem) d hd

lemma normChars_append (l1 l2 : List Char) :
    normChars (l1 ++ l2) = normChars l1 ++ normChars l2 := by
  simp [normChars]

lemma normChars_cons (c : Char) (l : List Char) :
    normChars (c :: l) = normChars [c] ++ normChars l :=
  normChars_append [c] l

lemma normChars_good_fixed : ∀ l : List Char, (∀ d ∈ l, goodChar d = true) → normChars l = l := by
  intro l
  induction l with
  | nil => intro _; rfl
  | cons d t ih =>
    intro h
    rw [normChars_cons]
    obtain ⟨h1, h2, h3⟩ := goodChar_spec (h d (by simp))
    have h1' : normChars [d] = [d] := by
      rw [norm1_shape, h1]
      simp [h2, h3]
    rw [h1', ih (fun x hx => h x (by simp [hx]))]
    rfl

lemma normChars_mem_good : ∀ l d, d ∈ normChars l → goodChar d = true := by
  intro l
  induction l with
  | nil => intro d hd; simp [normChars] at hd
  | cons c t ih =>
    intro d hd
    rw [normChars_cons] at hd
    rcases List.mem_append.mp hd with h | h
    · exact norm1_good c d h
    · exact ih d h

lemma normChars_idem (l : List Char) : normChars (normChars l) = normChars l :=
  normChars_good_fixed _ (fun d hd => normChars_mem_good _ d hd)

/-! ### Order facts about the final sort -/

lemma lexLe_total : ∀ a b : List Char, lexLe a b = true ∨ lexLe b a = true := by
  intro a
  induction a with
  | nil => intro b; left; rfl
  | cons x xs ih =>
    intro b
    cases b with
    | nil => right; rfl
    | cons y ys =>
      by_cases h1 : x.toNat < y.toNat
      · left; simp [lexLe, h1]
      · by_cases h2 : x.toNat = y.toNat
        · rcases ih ys with h | h
          · left; simp [lexLe, h1, h2, h]
          · right
            have hn : ¬ y.toNat < x.toNat := by omega
            simp [lexLe, hn, h2.symm, h]
        · right
          have hlt : y.toNat < x.toNat := by omega
          simp [lexLe, hlt]

lemma lexLe_trans : ∀ a b c : List Char,
    lexLe a b = true → lexLe b c = true → lexLe a c = true := by
  intro a
  induction a with
  | nil => intro b c _ _; rfl
  | cons x xs ih =>
    intro b c hab hbc
    cases b with
    | nil => simp [lexLe] at hab
    | cons y ys =>
      cases c with
      | nil => simp [lexLe] at hbc
      | cons z zs =>
        by_cases h1 : x.toNat < y.toNat
        · by_cases h2 : y.toNat < z.toNat
          · have h : x.toNat < z.toNat := by omega
            simp [lexLe, h]
          · by_cases h3 : y.toNat = z.toNat
            · have h : x.toNat < z.toNat := by omega
              simp [lexLe, h]
            · simp [lexLe, h2, h3] at hbc
        · by_cases h4 : x.toNat = y.toNat
          · simp only [lexLe, if_neg h1, if_pos h4] at hab
            by_cases h2 : y.toNat < z.toNat
            · have h : x.toNat < z.toNat := by omega
              simp [lexLe, h]
            · by_cases h3 : y.toNat = z.toNat
              · simp only [lexLe, if_neg h2, if_pos h3] at hbc
                have he : x.toNat = z.toNat := by omega
                have hn : ¬ x.toNat < z.toNat := by omega
                simp only [lexLe, if_neg hn, if_pos he]
                exact ih ys zs hab hbc
              · simp [lexLe, h2, h3] at hbc
          · simp [lexLe, h1, h4] at hab

lemma resLe_total : ∀ x y : Int × Entry, resLe x y = true ∨ resLe y x = true := by
  intro x y
  by_cases h1 : y.1 < x.1
  · left; simp [resLe, h1]
  · by_cases h2 : x.1 < y.1
    · right; simp [resLe, h2]
    · have he : x.1 = y.1 := by omega
      rcases lexLe_total (pyLowerStr x.2.name_fr).toList (pyLowerStr y.2.name_fr).toList with h | h
      · left
        simp only [resLe, if_neg h1, if_pos he]
        exact h
      · right
        simp only [resLe, if_neg h2, if_pos he.symm]
        exact h

lemma resLe_trans : ∀ x y z : Int × Entry,
    resLe x y = true → resLe y z = true → resLe x z = true := by
  intro x y z hxy hyz
  by_cases h1 : y.1 < x.1
  · by_cases h2 : z.1 < y.1
    · have h : z.1 < x.1 := by omega
      simp [resLe, h]
    · by_cases h3 : y.1 = z.1
      · have h : z.1 < x.1 := by omega
        simp [resLe, h]
      · simp [resLe, h2, h3] at hyz
  · by_cases h4 : x.1 = y.1
    · simp only [resLe, if_neg h1, if_pos h4] at hxy
      by_cases h2 : z.1 < y.1
      · have h : z.1 < x.1 := by omega
        simp [resLe, h]
      · by_cases h3 : y.1 = z.1
        · simp only [resLe, if_neg h2, if_pos h3] at hyz
          have he : x.1 = z.1 := by omega
          have hn : ¬ z.1 < x.1 := by omega
          simp only [resLe, if_neg hn, if_pos he]
          exact lexLe_trans _ _ _ hxy hyz
        · simp [resLe, h2, h3] at hyz
    · simp [resLe, h1, h4] at hxy

lemma insertRes_perm (x : Int × Entry) : ∀ l, (insertRes x l).Perm (x :: l) := by
  intro l
  induction l with
  | nil => exact List.Perm.refl _
  | cons y ys ih =>
    by_cases h : resLe x y = true
    · simp [insertRes, h]
    · simp only [insertRes, if_neg h]
      exact (List.Perm.cons y ih).trans (List.Perm.swap x y ys)

lemma sortResults_perm : ∀ l : List (Int × Entry), (sortResults l).Perm l := by
  intro l
  induction l with
  | nil => exact List.Perm.refl _
  | cons a t ih =>
    have : sortResults (a :: t) = insertRes a (sortResults t) := rfl
    rw [this]
    exact (insertRes_perm a _).trans (List.Perm.cons a ih)

lemma insertRes_pairwise (x : Int × Entry) (l : List (Int × Entry))
    (h : l.Pairwise (fun a b => resLe a b = true)) :
    (insertRes x l).Pairwise (fun a b => resLe a b = true) := by
  induction l with
  | nil => simp [insertRes]
  | cons y ys ih =>
    rw [List.pairwise_cons] at h
    obtain ⟨hy, hys⟩ := h
    by_cases hxy : resLe x y = true
    · simp only [insertRes, if_pos hxy]
      rw [List.pairwise_cons]
      refine ⟨?_, List.pairwise_cons.mpr ⟨hy, hys⟩⟩
      intro b hb
      rcases List.mem_cons.mp hb with hb | hb
      · rw [hb]; exact hxy
      · exact resLe_trans x y b hxy (hy b hb)
    · simp only [insertRes, if_neg hxy]
      rw [List.pairwise_cons]
      refine ⟨?_, ih hys⟩
      intro b hb
      have hb' : b ∈ x :: ys := (insertRes_perm x ys).mem_iff.mp hb
      rcases List.mem_cons.mp hb' with hb' | hb'
      · rw [hb']
        rcases resLe_total x y with h | h
        · exact absurd h hxy
        · exact h
      · exact hy b hb'

lemma sortResults_pairwise : ∀ l : List (Int × Entry),
    (sortResults l).Pairwise (fun a b => resLe a b = true) := by
  intro l
  induction l with
  | nil => simp [sortResults]
  | cons a t ih =>
    have : sortResults (a :: t) = insertRes a (sortResults t) := rfl
    rw [this]
    exact insertRes_pairwise a _ ih

/-! ### Invariants of the search accumulator -/

/-- The `(pack, id)` keys of a table's payloads, in table order. -/
def keysOf (table : List Row) : List String := table.map (fun r => entryKey r.data)

/-- Invariant tying the `seen_keys` set to the `results` list: seen keys
are exactly the keys of collected results, counts agree, every result
payload comes from the table, and no key repeats. -/
structure SInv (table : List Row) (st : SState) : Prop where
  seen_keys : ∀ k, k ∈ st.seen ↔ ∃ pr ∈ st.results, entryKey pr.2 = k
  len_eq : st.results.length = st.seen.length
  from_table : ∀ pr ∈ st.results, ∃ r ∈ table, pr.2 = r.data
  nodup : st.seen.Nodup
  sub : ∀ k ∈ st.seen, k ∈ keysOf table

lemma sinv_empty (table : List Row) : SInv table ⟨[], []⟩ := by
  refine ⟨?_, rfl, ?_, List.nodup_nil, ?_⟩ <;> simp

lemma sinv_addNew {table : List Row} {st : SState} (h : SInv table st)
    (score : Int) {e : Entry} (he : ∃ r ∈ table, e = r.data) :
    SInv table (addNew score e st) := by
  unfold addNew
  by_cases hc : st.seen.contains (entryKey e) = true
  · rw [if_pos hc]; exact h
  · rw [if_neg hc]
    have hnotin : entryKey e ∉ st.seen := by
      intro hmem
      exact hc (List.contains_iff_exists_mem_beq.mpr ⟨entryKey e, hmem, by simp⟩)
    refine ⟨?_, ?_, ?_, ?_, ?_⟩
    · intro k
      constructor
      · intro hk
        rcases List.mem_cons.mp hk with hk | hk
        · exact ⟨(score, e), by simp, hk.symm⟩
        · obtain ⟨pr, hpr, hkey⟩ := (h.seen_keys k).mp hk
          exact ⟨pr, by simp [hpr], hkey⟩
      · rintro ⟨pr, hpr, hkey⟩
        rcases List.mem_append.mp hpr with hpr | hpr
        · exact List.mem_cons_of_mem _ ((h.seen_keys k).mpr ⟨pr, hpr, hkey⟩)
        · rw [List.mem_singleton] at hpr
          subst hpr
          rw [← hkey]
          exact List.mem_cons_self _ _
    · simp [h.len_eq]
    · intro pr hpr
      rcases List.mem_append.mp hpr with hpr | hpr
      · exact h.from_table pr hpr
      · rw [List.mem_singleton] at hpr
        subst hpr
        exact he
    · exact List.nodup_cons.mpr ⟨hnotin, h.nodup⟩
    · intro k hk
      rcases List.mem_cons.mp hk with hk | hk
      · subst hk
        obtain ⟨r, hr, hre⟩ := he
        rw [hre]
        exact List.mem_map.mpr ⟨r, hr, rfl⟩
      · exact h.sub k hk

lemma sinv_addResultsStep {table : List Row} {st : SState} (h : SInv table st)
    (tf : Option String) (score : Int) {row : Row} (hrow : row ∈ table) :
    SInv table (addResultsStep tf score st row) := by
  unfold addResultsStep
  by_cases ht : traitOk tf row.data = true
  · rw [if_pos ht]; exact sinv_addNew h score ⟨row, hrow, rfl⟩
  · rw [if_neg ht]; exact h

lemma sinv_addEntryIfMatch {table : List Row} {st : SState} (h : SInv table st)
    (et pf tf : Option String) (score : Int) {row : Row} (hrow : row ∈ table) :
    SInv table (addEntryIfMatch et pf tf score row.data st) := by
  unfold addEntryIfMatch
  split
  · exact h
  · split
    · exact h
    · split
      · exact h
      · exact sinv_addNew h score ⟨row, hrow, rfl⟩

lemma sinv_scanStep {table : List Row} {st : SState} (h : SInv table st)
    (qnorm : String) (et pf tf : Option String) {row : Row} (hrow : row ∈ table) :
    SInv table (scanStep qnorm et pf tf st row) := by
  unfold scanStep
  dsimp only
  split
  · exact sinv_addEntryIfMatch h et pf tf 900 hrow
  · split
    · exact sinv_addEntryIfMatch h et pf tf 850 hrow
    · split
      · exact sinv_addEntryIfMatch h et pf tf 400 hrow
      · split
        · exact sinv_addEntryIfMatch h et pf tf 350 hrow
        · split
          · exact sinv_addEntryIfMatch h et pf tf 100 hrow
          · split
            · exact sinv_addEntryIfMatch h et pf tf 50 hrow
            · exact h

lemma sinv_foldl {table : List Row} {step : SState → Row → SState}
    (hstep : ∀ st row, SInv table st → row ∈ table → SInv table (step st row)) :
    ∀ (rows : List Row), (∀ r ∈ rows, r ∈ table) → ∀ st, SInv table st →
      SInv table (rows.foldl step st) := by
  intro rows
  induction rows with
  | nil => intro _ st h; exact h
  | cons r rs ih =>
    intro hsub st h
    rw [List.foldl_cons]
    exact ih (fun x hx => hsub x (List.mem_cons_of_mem _ hx)) _
      (hstep st r h (hsub r (List.mem_cons_self _ _)))

lemma sinv_addResults {table : List Row} {st : SState} (h : SInv table st)
    (tf : Option String) (score : Int) {rows : List Row} (hrows : ∀ r ∈ rows, r ∈ table) :
    SInv table (addResults tf score rows st) :=
  sinv_foldl (fun _st _row hst hrow => sinv_addResultsStep hst tf score hrow) rows hrows st h

lemma sqlFilter_sub (table : List Row) (pred : Row → Bool) (et pf : Option String) :
    ∀ r ∈ sqlFilter table pred et pf, r ∈ table := by
  intro r hr
  exact List.mem_of_mem_filter hr

lemma scanRows_sub (table : List Row) (et : Option String) :
    ∀ r ∈ scanRows table et, r ∈ table := by
  intro r hr
  unfold scanRows at hr
  cases et with
  | none => exact hr
  | some t => exact List.mem_of_mem_filter hr

lemma sinv_tieredState (q : String) (table : List Row) (et pf tf : Option String) :
    SInv table (tieredState q table et pf tf) := by
  unfold tieredState
  refine sinv_addResults (sinv_addResults (sinv_addResults (sinv_addResults
    (sinv_addResults (sinv_addResults (sinv_empty table) tf 1000 (sqlFilter_sub _ _ _ _))
      tf 950 (sqlFilter_sub _ _ _ _)) tf 500 (sqlFilter_sub _ _ _ _))
      tf 450 (sqlFilter_sub _ _ _ _))
    tf 200 (sqlFilter_sub _ _ _ _)) tf 150 (sqlFilter_sub _ _ _ _)

lemma sinv_scannedState (q : String) (table : List Row) (et pf tf : Option String) :
    SInv table (scannedState q table et pf tf) := by
  unfold scannedState
  dsimp only
  split
  · exact sinv_foldl (fun st row hst hrow => sinv_scanStep hst _ et pf tf hrow)
      _ (scanRows_sub table et) _ (sinv_tieredState q table et pf tf)
  · exact sinv_tieredState q table et pf tf

/-! ### The accent-insensitive scan reaches a matching row -/

lemma addNew_seen_mono (score : Int) (e : Entry) (st : SState) :
    ∀ k ∈ st.seen, k ∈ (addNew score e st).seen := by
  intro k hk
  unfold addNew
  split
  · exact hk
  · exact List.mem_cons_of_mem _ hk

lemma addEntryIfMatch_seen_mono (et pf tf : Option String) (score : Int) (e : Entry)
    (st : SState) : ∀ k ∈ st.seen, k ∈ (addEntryIfMatch et pf tf score e st).seen := by
  intro k hk
  unfold addEntryIfMatch
  split
  · exact hk
  · split
    · exact hk
    · split
      · exact hk
      · exact addNew_seen_mono score e st k hk

lemma scanStep_seen_mono (qnorm : String) (et pf tf : Option String) (st : SState)
    (row : Row) : ∀ k ∈ st.seen, k ∈ (scanStep qnorm et pf tf st row).seen := by
  intro k hk
  unfold scanStep
  dsimp only
  split
  · exact addEntryIfMatch_seen_mono _ _ _ _ _ _ k hk
  · split
    · exact addEntryIfMatch_seen_mono _ _ _ _ _ _ k hk
    · split
      · exact addEntryIfMatch_seen_mono _ _ _ _ _ _ k hk
      · split
        · exact addEntryIfMatch_seen_mono _ _ _ _ _ _ k hk
        · split
          · exact addEntryIfMatch_seen_mono _ _ _ _ _ _ k hk
          · split
            · exact addEntryIfMatch_seen_mono _ _ _ _ _ _ k hk
            · exact hk

lemma foldl_scanStep_seen_mono (qnorm : String) (et pf tf : Option String) :
    ∀ (rows : List Row) (st : SState), ∀ k ∈ st.seen,
      k ∈ (rows.foldl (scanStep qnorm et pf tf) st).seen := by
  intro rows
  induction rows with
  | nil => intro st k hk; exact hk
  | cons r rs ih =>
    intro st k hk
    rw [List.foldl_cons]
    exact ih _ k (scanStep_seen_mono qnorm et pf tf st r k hk)

lemma addNew_key_mem (score : Int) (e : Entry) (st : SState) :
    entryKey e ∈ (addNew score e st).seen := by
  unfold addNew
  by_cases hc : st.seen.contains (entryKey e) = true
  · rw [if_pos hc]
    obtain ⟨k, hk, hbeq⟩ := List.contains_iff_exists_mem_beq.mp hc
    rw [show entryKey e = k from by simpa using hbeq]
    exact hk
  · rw [if_neg hc]
    exact List.mem_cons_self _ _

lemma addEntryIfMatch_open_key (score : Int) (e : Entry) (st : SState) :
    entryKey e ∈ (addEntryIfMatch none none none score e st).seen := by
  unfold addEntryIfMatch
  simp only [traitOk, Bool.not_true, Bool.false_eq_true, if_false]
  exact addNew_key_mem score e st

lemma scanStep_hit (qnorm : String) (st : SState) (row : Row)
    (hmatch : normalize_text row.data.name_fr = qnorm ∨
      normalize_text row.data.name_en = qnorm ∨
      pyStartsWith (normalize_text row.data.name_fr) qnorm = true ∨
      pyStartsWith (normalize_text row.data.name_en) qnorm = true ∨
      pyContains (normalize_text row.data.name_fr) qnorm = true ∨
      pyContains (normalize_text row.data.name_en) qnorm = true) :
    entryKey row.data ∈ (scanStep qnorm none none none st row).seen := by
  unfold scanStep
  dsimp only
  split
  · exact addEntryIfMatch_open_key _ _ _
  · split
    · exact addEntryIfMatch_open_key _ _ _
    · split
      · exact addEntryIfMatch_open_key _ _ _
      · split
        · exact addEntryIfMatch_open_key _ _ _
        · split
          · exact addEntryIfMatch_open_key _ _ _
          · split
            · exact addEntryIfMatch_open_key _ _ _
            · rename_i h1 h2 h3 h4 h5 h6
              exfalso
              rcases hmatch with h | h | h | h | h | h
              · exact h1 (by simp [h])
              · exact h2 (by simp [h])
              · exact h3 h
              · exact h4 h
              · exact h5 h
              · exact h6 h

lemma foldl_scanStep_key (qnorm : String) :
    ∀ (rows : List Row) (st : SState) (row : Row), row ∈ rows →
      (normalize_text row.data.name_fr = qnorm ∨
        normalize_text row.data.name_en = qnorm ∨
        pyStartsWith (normalize_text row.data.name_fr) qnorm = true ∨
        pyStartsWith (normalize_text row.data.name_en) qnorm = true ∨
        pyContains (normalize_text row.data.name_fr) qnorm = true ∨
        pyContains (normalize_text row.data.name_en) qnorm = true) →
      entryKey row.data ∈ (rows.foldl (scanStep qnorm none none none) st).seen := by
  intro rows
  induction rows with
  | nil => intro st row hrow; cases hrow
  | cons r rs ih =>
    intro st row hrow hmatch
    rw [List.foldl_cons]
    rcases List.mem_cons.mp hrow with h | h
    · subst h
      exact foldl_scanStep_seen_mono qnorm none none none rs _ _
        (scanStep_hit qnorm st row hmatch)
    · exact ih _ row h hmatch

lemma scannedState_results_bound (q : String) (table : List Row) (et pf tf : Option String) :
    (scannedState q table et pf tf).results.length ≤ table.length := by
  have h := sinv_scannedState q table et pf tf
  rw [h.len_eq]
  have hsub : (scannedState q table et pf tf).seen ⊆ keysOf table := fun k hk => h.sub k hk
  have hle := (h.nodup.subperm hsub).length_le
  have : (keysOf table).length = table.length := List.length_map _ _
  omega

/-- Under no filters, whenever the re-scan trigger fires — the query
carries diacritics, or the six tiers collected fewer than 5 results — a
corpus row whose normalized primary or secondary name matches the
normalized query is collected by the accent-insensitive re-scan (or was
already collected by the tiers). -/
lemma scannedState_mem (q : String) (table : List Row) (row : Row)
    (hrow : row ∈ table) (hnd : (keysOf table).Nodup)
    (htrigger : normalize_text q ≠ pyStrip (pyLowerStr q) ∨
      (tieredState q table none none none).results.length < 5)
    (hmatch : normalize_text row.data.name_fr = normalize_text q ∨
      normalize_text row.data.name_en = normalize_text q ∨
      pyStartsWith (normalize_text row.data.name_fr) (normalize_text q) = true ∨
      pyStartsWith (normalize_text row.data.name_en) (normalize_text q) = true ∨
      pyContains (normalize_text row.data.name_fr) (normalize_text q) = true ∨
      pyContains (normalize_text row.data.name_en) (normalize_text q) = true) :
    ∃ pr ∈ (scannedState q table none none none).results, pr.2 = row.data := by
  have hinv := sinv_scannedState q table none none none
  have htrig : scannedState q table none none none =
      (scanRows table none).foldl (scanStep (normalize_text q) none none none)
        (tieredState q table none none none) := by
    unfold scannedState
    dsimp only
    rw [if_pos]
    rcases htrigger with hacc | hfew
    · have : (normalize_text q == pyStrip (pyLowerStr q)) = false := by
        simpa using hacc
      simp [this]
    · simp [hfew]
  have hkey : entryKey row.data ∈ (scannedState q table none none none).seen := by
    rw [htrig]
    exact foldl_scanStep_key _ _ _ row hrow hmatch
  obtain ⟨pr, hpr, hkeq⟩ := (hinv.seen_keys _).mp hkey
  obtain ⟨r2, hr2, hr2e⟩ := hinv.from_table pr hpr
  have hfr : r2 = row := by
    refine List.inj_on_of_nodup_map hnd hr2 hrow ?_
    show entryKey r2.data = entryKey row.data
    rw [← hr2e, hkeq]
  refine ⟨pr, hpr, ?_⟩
  rw [hr2e, hfr]

/-! ### Characterization of the corpus build -/

lemma insertStep_eq (tbl : List Row) (e : Entry) :
    insertStep tbl e =
      if tbl.any (fun r0 => r0.pack == e.pack && r0.id == e.id) then tbl
      else tbl ++ [rowOf e] := rfl

lemma create_fold_pairwise :
    ∀ (es : List Entry) (tbl : List Row),
      tbl.Pairwise (fun r1 r2 => ¬(r1.pack = r2.pack ∧ r1.id = r2.id)) →
      (es.foldl insertStep tbl).Pairwise (fun r1 r2 => ¬(r1.pack = r2.pack ∧ r1.id = r2.id)) := by
  intro es
  induction es with
  | nil => intro tbl h; exact h
  | cons e es ih =>
    intro tbl h
    rw [List.foldl_cons]
    apply ih
    rw [insertStep_eq]
    by_cases hm : tbl.any (fun r0 => r0.pack == e.pack && r0.id == e.id) = true
    · rw [if_pos hm]; exact h
    · rw [if_neg hm]
      rw [List.pairwise_append]
      refine ⟨h, List.pairwise_singleton _ _, ?_⟩
      intro r1 hr1 r2 hr2
      rw [List.mem_singleton] at hr2
      subst hr2
      intro hcon
      apply hm
      rw [List.any_eq_true]
      refine ⟨r1, hr1, ?_⟩
      rw [Bool.and_eq_true, beq_iff_eq, beq_iff_eq]
      exact ⟨hcon.1, hcon.2⟩

lemma create_fold_filter (p i : String) :
    ∀ (es : List Entry) (tbl : List Row),
      (es.foldl insertStep tbl).filter (fun r => r.pack == p && r.id == i) =
        (if tbl.any (fun r => r.pack == p && r.id == i) then
          tbl.filter (fun r => r.pack == p && r.id == i)
        else
          match es.find? (fun e => e.pack == p && e.id == i) with
          | some e => [rowOf e]
          | none => []) := by
  intro es
  induction es with
  | nil =>
    intro tbl
    rw [List.foldl_nil, List.find?_nil]
    by_cases h : tbl.any (fun r => r.pack == p && r.id == i) = true
    · rw [if_pos h]
    · rw [if_neg h]
      rw [List.filter_eq_nil_iff]
      intro r hr hkey
      apply h
      rw [List.any_eq_true]
      exact ⟨r, hr, hkey⟩
  | cons e es ih =>
    intro tbl
    rw [List.foldl_cons, insertStep_eq]
    by_cases hm : tbl.any (fun r0 => r0.pack == e.pack && r0.id == e.id) = true
    · rw [if_pos hm, ih tbl]
      by_cases hki : tbl.any (fun r => r.pack == p && r.id == i) = true
      · rw [if_pos hki, if_pos hki]
      · rw [if_neg hki, if_neg hki]
        have hne : (e.pack == p && e.id == i) = false := by
          by_contra hcon
          have hke : (e.pack == p && e.id == i) = true := by
            cases h' : (e.pack == p && e.id == i)
            · exact absurd h' hcon
            · rfl
          rw [Bool.and_eq_true, beq_iff_eq, beq_iff_eq] at hke
          apply hki
          obtain ⟨r0, hr0, hr0k⟩ := List.any_eq_true.mp hm
          rw [List.any_eq_true]
          refine ⟨r0, hr0, ?_⟩
          rw [Bool.and_eq_true, beq_iff_eq, beq_iff_eq] at hr0k ⊢
          rw [← hke.1, ← hke.2]
          exact hr0k
        have hneP : ¬((fun e0 : Entry => e0.pack == p && e0.id == i) e = true) := by
          simp only [hne]
          exact Bool.false_ne_true
        rw [show List.find? (fun e0 : Entry => e0.pack == p && e0.id == i) (e :: es) =
          List.find? (fun e0 : Entry => e0.pack == p && e0.id == i) es from
          List.find?_cons_of_neg _ hneP]
    · rw [if_neg hm, ih (tbl ++ [rowOf e])]
      by_cases hke : (e.pack == p && e.id == i) = true
      · have hkey : e.pack = p ∧ e.id = i := by
          rw [Bool.and_eq_true, beq_iff_eq, beq_iff_eq] at hke
          exact hke
        have hki : tbl.any (fun r => r.pack == p && r.id == i) = false := by
          cases h' : tbl.any (fun r => r.pack == p && r.id == i)
          · rfl
          · exfalso
            apply hm
            obtain ⟨r0, hr0, hr0k⟩ := List.any_eq_true.mp h'
            rw [List.any_eq_true]
            refine ⟨r0, hr0, ?_⟩
            rw [Bool.and_eq_true, beq_iff_eq, beq_iff_eq] at hr0k ⊢
            rw [hkey.1, hkey.2]
            exact hr0k
        have hany2 : (tbl ++ [rowOf e]).any (fun r => r.pack == p && r.id == i) = true := by
          rw [List.any_eq_true]
          refine ⟨rowOf e, by simp, ?_⟩
          show (e.pack == p && e.id == i) = true
          exact hke
        have hkeP : (fun e0 : Entry => e0.pack == p && e0.id == i) e = true := hke
        rw [if_pos hany2, show List.find? (fun e0 : Entry => e0.pack == p && e0.id == i) (e :: es) =
          some e from List.find?_cons_of_pos _ hkeP, if_neg (by rw [hki]; simp)]
        rw [List.filter_append]
        have h1 : tbl.filter (fun r => r.pack == p && r.id == i) = [] := by
          rw [List.filter_eq_nil_iff]
          intro r hr hrk
          have : tbl.any (fun r => r.pack == p && r.id == i) = true :=
            List.any_eq_true.mpr ⟨r, hr, hrk⟩
          rw [this] at hki
          exact Bool.true_eq_false.mp hki
        rw [h1]
        have h2 : List.filter (fun r => r.pack == p && r.id == i) [rowOf e] = [rowOf e] := by
          rw [List.filter_cons]
          rw [show ((rowOf e).pack == p && (rowOf e).id == i) = true from hke]
          rfl
        rw [h2]
        rfl
      · have hke' : (e.pack == p && e.id == i) = false := by
          cases h' : (e.pack == p && e.id == i)
          · rfl
          · exact absurd h' hke
        have hany_eq : (tbl ++ [rowOf e]).any (fun r => r.pack == p && r.id == i) =
            tbl.any (fun r => r.pack == p && r.id == i) := by
          rw [List.any_append]
          have : List.any [rowOf e] (fun r => r.pack == p && r.id == i) = false := by
            simp only [List.any_cons, List.any_nil, Bool.or_false]
            exact hke'
          rw [this, Bool.or_false]
        have hkeP : ¬((fun e0 : Entry => e0.pack == p && e0.id == i) e = true) := by
          simp only [hke']
          exact Bool.false_ne_true
        rw [show List.find? (fun e0 : Entry => e0.pack == p && e0.id == i) (e :: es) =
          List.find? (fun e0 : Entry => e0.pack == p && e0.id == i) es from
          List.find?_cons_of_neg _ hkeP, hany_eq]
        by_cases hki : tbl.any (fun r => r.pack == p && r.id == i) = true
        · rw [if_pos hki, if_pos hki]
          rw [List.filter_append]
          have h2 : List.filter (fun r => r.pack == p && r.id == i) [rowOf e] = [] := by
            rw [List.filter_cons]
            rw [show ((rowOf e).pack == p && (rowOf e).id == i) = false from hke']
            rfl
          rw [h2, List.append_nil]
        · rw [if_neg hki, if_neg hki]

/-! ### Small facts about string splitting and the falsy-or -/

lemma splitDash_ne_nil : ∀ l : List Char, splitDash l ≠ [] := by
  intro l
  cases l with
  | nil => simp [splitDash]
  | cons c cs =>
    cases h : splitDash cs with
    | nil => simp [splitDash, h]
    | cons b bs =>
      by_cases hc : c = '-' <;> simp [splitDash, h, hc]

lemma splitDash_no_dash : ∀ l : List Char, '-' ∉ l → splitDash l = [l] := by
  intro l
  induction l with
  | nil => intro _; rfl
  | cons c cs ih =>
    intro h
    have hc : c ≠ '-' := fun hh => h (by rw [hh]; exact List.mem_cons_self _ _)
    have hcs : '-' ∉ cs := fun hh => h (List.mem_cons_of_mem _ hh)
    simp [splitDash, ih hcs, hc]

lemma splitDash_dash_len : ∀ l : List Char, '-' ∈ l → 2 ≤ (splitDash l).length := by
  intro l
  induction l with
  | nil => intro h; cases h
  | cons c cs ih =>
    intro h
    cases hsp : splitDash cs with
    | nil => exact absurd hsp (splitDash_ne_nil cs)
    | cons b bs =>
      by_cases hc : c = '-'
      · simp only [splitDash, hsp, if_pos hc, List.length_cons]
        omega
      · have hcs : '-' ∈ cs := by
          rcases List.mem_cons.mp h with h | h
          · exact absurd h.symm hc
          · exact h
        have hlen := ih hcs
        rw [hsp] at hlen
        simp only [List.length_cons] at hlen
        simp only [splitDash, hsp, if_neg hc, List.length_cons]
        omega

lemma splitDash_singleton_eq : ∀ (l b : List Char), splitDash l = [b] → b = l := by
  intro l
  induction l with
  | nil =>
    intro b h
    simp only [splitDash] at h
    injection h with h1 _
    exact h1.symm
  | cons c cs ih =>
    intro b h
    cases hsp : splitDash cs with
    | nil => exact absurd hsp (splitDash_ne_nil cs)
    | cons b0 bs =>
      simp only [splitDash, hsp] at h
      by_cases hc : c = '-'
      · rw [if_pos hc] at h
        simp at h
      · rw [if_neg hc] at h
        injection h with h1 h2
        subst h2
        have hb0 : b0 = cs := ih b0 hsp
        rw [← h1, hb0]

lemma strOr_self (a : String) : strOr a a = a := by
  unfold strOr
  split <;> rfl

lemma strOr_empty_left (b : String) : strOr "" b = b := rfl

lemma strOr_ne_of_right {a b : String} (hb : b ≠ "") : strOr a b ≠ "" := by
  unfold strOr
  split
  · exact hb
  · assumption

lemma strOr_ne {a b : String} (h : a ≠ "" ∨ b ≠ "") : strOr a b ≠ "" := by
  unfold strOr
  split
  · rename_i ha
    rcases h with h | h
    · exact absurd ha h
    · exact h
  · assumption

/-! ### Concrete corpora used by the claims -/

/-- A fully translated entry with an empty attribute tree, as the search
claims need (identifier, pack, derived category, French and English
names, raw Foundry type tag). -/
def mkEntry (id pack pack_type name_fr name_en ty : String) : Entry :=
  { id := id, pack := pack, pack_type := pack_type, source := "foundry+pf2-fr",
    translated := true, name := name_fr, name_fr := name_fr, name_en := name_en,
    description := "", type := ty, system := JsonVal.obj [], items := [] }

def wolfE1 : Entry := mkEntry "aaaaaaaaaaaaaaa1" "bestiary" "créature" "Loup" "Wolf" "npc"

def wolfE2 : Entry := mkEntry "aaaaaaaaaaaaaaa2" "bestiary" "créature" "Loup géant" "Giant Wolf" "npc"

def wolfE3 : Entry := mkEntry "aaaaaaaaaaaaaaa3" "bestiary" "créature" "Grand Loup" "Big Wolf" "npc"

def wolfTable : List Row := [rowOf wolfE1, rowOf wolfE2, rowOf wolfE3]

/-- An entry named with a diacritic; its raw tag `npc` differs from its
derived category `créature`, as for every Foundry creature. -/
def demonE1 : Entry := mkEntry "bbbbbbbbbbbbbbb1" "bestiary" "créature" "Démon" "Démon" "npc"

def demonTable1 : List Row := [rowOf demonE1]

def demonE2 : Entry := mkEntry "bbbbbbbbbbbbbbb2" "bestiary" "créature" "Demon" "Demon" "npc"

def demonTable2 : List Row := [rowOf demonE2]

def plainItem : RawItem :=
  { id := "cccccccccccccccc", name := "Goblin", type := "npc",
    system := JsonVal.obj [], items := [] }

/-- A record with an explicit `spell` tag whose attribute tree also has
the hit-points path of the creature heuristic. -/
def taggedItem : RawItem :=
  { id := "dddddddddddddddd", name := "Y", type := "spell",
    system := JsonVal.obj [("attributes", JsonVal.obj [("hp", JsonVal.num 10)])],
    items := [] }

def fireBoltLines : List String :=
  ["Name: Fire Bolt", "Nom: Trait de feu", "-- Desc (en) --", "A bolt.",
   "-- Desc (fr) --", "Un trait.", "-- End desc ---"]

def fireBoltTr : Translation :=
  { uuid := "sxQZ6yqTn0czJxVd", pack := "spells", name_en := "Fire Bolt",
    name_fr := "Trait de feu", desc_en := "A bolt.", desc_fr := "Un trait.",
    status := "", items := [] }

/-! ### The claims -/

/-- C1: on a corpus containing exactly the entries named `Loup`,
`Loup géant` and `Grand Loup`, searching `loup` with no filters returns
them in that order (exact, then prefix, then substring match); and in
general the ranked result list of `search` is ordered by descending tier
score with ties broken by ascending lowercased primary-language
(`name_fr`) name. -/
theorem c1_ranking_order :
    search "loup" wolfTable none none none 25 = [wolfE1, wolfE2, wolfE3] ∧
    ∀ (q : String) (table : List Row) (et pf tf : Option String),
      (searchRanked q table et pf tf).Pairwise (fun a b => resLe a b = true) := by
  constructor
  · rfl
  · intro q table et pf tf
    exact sortResults_pairwise (scannedState q table et pf tf).results

/-- C2: searching `demon` returns an entry named `Démon`, searching
`démon` returns an entry named `Demon`; and in general, with no filters,
whenever the accent-insensitive re-scan is triggered — the query carries
diacritics, or the six ranking tiers produced fewer than the fixed
threshold of 5 results — any corpus row whose normalized primary- or
secondary-language name equals, starts with, or contains the normalized
query is returned, limit permitting. -/
theorem c2_accent_insensitive :
    search "demon" demonTable1 none none none 25 = [demonE1] ∧
    search "démon" demonTable2 none none none 25 = [demonE2] ∧
    ∀ (q : String) (table : List Row) (limit : Nat) (row : Row),
      row ∈ table →
      (∀ r ∈ table, r.id ≠ q) →
      (keysOf table).Nodup →
      table.length ≤ limit →
      (normalize_text q ≠ pyStrip (pyLowerStr q) ∨
        (tieredState q table none none none).results.length < 5) →
      (normalize_text row.data.name_fr = normalize_text q ∨
        normalize_text row.data.name_en = normalize_text q ∨
        pyStartsWith (normalize_text row.data.name_fr) (normalize_text q) = true ∨
        pyStartsWith (normalize_text row.data.name_en) (normalize_text q) = true ∨
        pyContains (normalize_text row.data.name_fr) (normalize_text q) = true ∨
        pyContains (normalize_text row.data.name_en) (normalize_text q) = true) →
      row.data ∈ search q table none none none limit := by
  refine ⟨by rfl, by rfl, ?_⟩
  intro q table limit row hrow hid hnd hlim htrigger hmatch
  have hfind : table.find? (fun r => r.id == q) = none := by
    rw [List.find?_eq_none]
    intro r hr
    simpa using hid r hr
  have hfast : (if uuidLike q then table.find? (fun r => r.id == q) else none) = none := by
    by_cases h : uuidLike q = true
    · rw [if_pos h, hfind]
    · rw [if_neg h]
  unfold search
  rw [hfast]
  show row.data ∈ ((searchRanked q table none none none).take limit).map (fun p => p.2)
  obtain ⟨pr, hpr, hpreq⟩ := scannedState_mem q table row hrow hnd htrigger hmatch
  have hmem : pr ∈ searchRanked q table none none none :=
    (sortResults_perm _).mem_iff.mpr hpr
  have hlen : (searchRanked q table none none none).length ≤ limit := by
    have h1 := (sortResults_perm (scannedState q table none none none).results).length_eq
    have h2 := scannedState_results_bound q table none none none
    have h3 : (searchRanked q table none none none).length =
        (sortResults (scannedState q table none none none).results).length := rfl
    omega
  rw [List.take_of_length_le hlen]
  exact List.mem_map.mpr ⟨pr, hmem, hpreq⟩

/-- Witness for C2: the general statement applied through both halves of
the trigger — the diacritic-free query `demon` reaching `Démon` via the
below-threshold trigger (the tiers collect nothing), and the
diacritic-bearing query `démon` reaching `Demon` via the diacritic
trigger. -/
theorem c2_accent_insensitive_witness :
    demonE1 ∈ search "demon" demonTable1 none none none 25 ∧
    demonE2 ∈ search "démon" demonTable2 none none none 25 :=
  ⟨c2_accent_insensitive.2.2 "demon" demonTable1 25 (rowOf demonE1)
      (List.mem_singleton.mpr rfl)
      (by
        intro r hr
        rw [List.mem_singleton.mp hr]
        decide)
      (by decide) (by decide)
      (Or.inr (by decide))
      (Or.inl (by decide)),
    c2_accent_insensitive.2.2 "démon" demonTable2 25 (rowOf demonE2)
      (List.mem_singleton.mpr rfl)
      (by
        intro r hr
        rw [List.mem_singleton.mp hr]
        decide)
      (by decide) (by decide)
      (Or.inl (by decide))
      (Or.inl (by decide))⟩

/-- C3: after a corpus build no two persisted rows share the
`(pack, id)` compound key, and the rows persisted for any given key are
exactly one row for the first entry of the stream with that key (later
duplicates are dropped silently, the fold is total). -/
theorem c3_unique_first_wins (entries : List Entry) :
    (create_database entries).Pairwise (fun r1 r2 => ¬(r1.pack = r2.pack ∧ r1.id = r2.id)) ∧
    ∀ p i, (create_database entries).filter (fun r => r.pack == p && r.id == i) =
      (match entries.find? (fun e => e.pack == p && e.id == i) with
       | some e => [rowOf e]
       | none => []) := by
  constructor
  · exact create_fold_pairwise entries [] List.Pairwise.nil
  · intro p i
    have h := create_fold_filter p i entries []
    rw [show create_database entries = entries.foldl insertStep [] from rfl, h,
      if_neg (by simp)]

/-- C4: a mechanical record whose identifier is absent from the
translation map produces a canonical entry with `translated = false`,
both localized names equal to the record's original name, and an empty
description. -/
theorem c4_untranslated_fallback
    (translations : List (String × Translation)) (journals : List (String × String))
    (pack_name : String) (entry : RawItem)
    (h : translations.find? (fun p => p.1 == entry.id) = none) :
    (buildEntry translations journals pack_name entry).translated = false ∧
    (buildEntry translations journals pack_name entry).name_fr = entry.name ∧
    (buildEntry translations journals pack_name entry).name_en = entry.name ∧
    (buildEntry translations journals pack_name entry).description = "" := by
  unfold buildEntry
  rw [h]
  refine ⟨rfl, strOr_self _, strOr_self _, rfl⟩

/-- Witness for C4: the fallback evaluated on a concrete record with an
empty translation map. -/
theorem c4_untranslated_fallback_witness :
    (buildEntry [] [] "bestiary" plainItem).translated = false ∧
    (buildEntry [] [] "bestiary" plainItem).name_fr = plainItem.name ∧
    (buildEntry [] [] "bestiary" plainItem).name_en = plainItem.name ∧
    (buildEntry [] [] "bestiary" plainItem).description = "" :=
  c4_untranslated_fallback [] [] "bestiary" plainItem rfl

/-- C5 counterexample: the claim that a recovered primary-language
(French) name forces a non-empty secondary-language (English) name is
false: a file containing only `Nom: Loup` parses to a record with
`name_fr = "Loup"` and `name_en = ""`. -/
theorem c5_counterexample :
    ¬ (∀ (stem pack_name : String) (lines : List String) (tr : Translation),
        parse_htm_file stem pack_name lines = some tr →
        (tr.name_fr ≠ "" → tr.name_en ≠ "") ∧ (tr.desc_fr ≠ "" → tr.desc_en ≠ "")) := by
  intro hclaim
  have hp : parse_htm_file "a-b" "packX" ["Nom: Loup"] =
      some { uuid := "a-b", pack := "packX", name_en := "", name_fr := "Loup",
             desc_en := "", desc_fr := "", status := "", items := [] } := by rfl
  have h := (hclaim "a-b" "packX" ["Nom: Loup"] _ hp).1
  exact h (by decide) rfl

/-- C5 (amended): the fallback runs the other way round.  Whenever the
parser returns a record, a recovered secondary-language (English) name
forces a non-empty primary-language (French) name, the French name
falling back to the English one when its own field is missing or empty;
the same law holds for the description pair, and the French name of a
returned record is never empty. -/
theorem c5_fallback_amended
    (stem pack_name : String) (lines : List String) (tr : Translation)
    (h : parse_htm_file stem pack_name lines = some tr) :
    (tr.name_en ≠ "" → tr.name_fr ≠ "") ∧
    (tr.desc_en ≠ "" → tr.desc_fr ≠ "") ∧
    (labelValue "Nom:" lines = "" → tr.name_fr = tr.name_en) ∧
    (descSection "-- Desc (fr) --" ["-- End desc ---"] lines = "" → tr.desc_fr = tr.desc_en) ∧
    tr.name_fr ≠ "" := by
  unfold parse_htm_file at h
  by_cases hc : labelValue "Name:" lines = "" ∧ labelValue "Nom:" lines = ""
  · rw [if_pos hc] at h
    exact absurd h (by simp)
  · rw [if_neg hc] at h
    have heq := Option.some.inj h
    subst heq
    refine ⟨?_, ?_, ?_, ?_, ?_⟩
    · intro hen
      exact strOr_ne_of_right hen
    · intro hden
      exact strOr_ne_of_right hden
    · intro hfr
      show strOr (labelValue "Nom:" lines) (labelValue "Name:" lines) = labelValue "Name:" lines
      rw [hfr]
      rfl
    · intro hdfr
      show strOr (descSection "-- Desc (fr) --" ["-- End desc ---"] lines)
        (descSection "-- Desc (en) --" ["-- Desc (fr) --", "-- End desc ---"] lines) =
        descSection "-- Desc (en) --" ["-- Desc (fr) --", "-- End desc ---"] lines
      rw [hdfr]
      rfl
    · rcases Decidable.not_and_iff_or_not.mp hc with hne | hne
      · exact strOr_ne (Or.inr hne)
      · exact strOr_ne (Or.inl hne)

/-- Witness for C5 (amended): the fallback laws evaluated on the
Fire Bolt annotation file. -/
theorem c5_fallback_amended_witness :
    (fireBoltTr.name_en ≠ "" → fireBoltTr.name_fr ≠ "") ∧
    (fireBoltTr.desc_en ≠ "" → fireBoltTr.desc_fr ≠ "") ∧
    (labelValue "Nom:" fireBoltLines = "" → fireBoltTr.name_fr = fireBoltTr.name_en) ∧
    (descSection "-- Desc (fr) --" ["-- End desc ---"] fireBoltLines = "" →
      fireBoltTr.desc_fr = fireBoltTr.desc_en) ∧
    fireBoltTr.name_fr ≠ "" :=
  c5_fallback_amended "common-03-sxQZ6yqTn0czJxVd" "spells" fireBoltLines fireBoltTr rfl

/-- C6: the identifier resolver returns the last `-`-separated segment
when there are at least two segments and the last is 16 alphanumerics;
returns the stem itself when it has no separator and is 16 alphanumerics;
and returns the stem verbatim when both shapes fail. -/
theorem c6_identifier_resolution :
    (∀ stem : String, 2 ≤ (splitDash stem.toList).length →
      looks_like_uuid ((splitDash stem.toList).getLastD []) = true →
      resolveUuid stem = String.mk ((splitDash stem.toList).getLastD [])) ∧
    (∀ stem : String, '-' ∉ stem.toList → looks_like_uuid stem.toList = true →
      resolveUuid stem = stem) ∧
    (∀ stem : String,
      ¬(2 ≤ (splitDash stem.toList).length ∧
        looks_like_uuid ((splitDash stem.toList).getLastD []) = true) →
      ¬('-' ∉ stem.toList ∧ looks_like_uuid stem.toList = true) →
      resolveUuid stem = stem) := by
  refine ⟨?_, ?_, ?_⟩
  · intro stem h1 h2
    unfold resolveUuid
    rw [if_pos ⟨h1, h2⟩]
  · intro stem hnd hu
    unfold resolveUuid
    have hsp : splitDash stem.toList = [stem.toList] := splitDash_no_dash _ hnd
    rw [hsp]
    rw [if_neg (by simp), if_pos (by simpa using hu)]
    cases stem
    rfl
  · intro stem h1 h2
    unfold resolveUuid
    rw [if_neg h1, if_neg ?_]
    rintro ⟨hlen, hu⟩
    cases hsp : splitDash stem.toList with
    | nil => exact absurd hsp (splitDash_ne_nil _)
    | cons b bs =>
      rw [hsp] at hlen
      simp only [List.length_cons] at hlen
      have hbs : bs = [] := by
        cases bs with
        | nil => rfl
        | cons x xs => simp at hlen
      subst hbs
      have hb : b = stem.toList := splitDash_singleton_eq _ b hsp
      rw [hsp] at hu
      simp only [List.headD_cons] at hu
      rw [hb] at hu
      apply h2
      refine ⟨?_, hu⟩
      intro hdash
      have := splitDash_dash_len _ hdash
      rw [hsp] at this
      simp at this

/-- Witness for C6: the resolver applied to a prefixed file-name stem. -/
theorem c6_identifier_resolution_witness :
    resolveUuid "common-03-sxQZ6yqTn0czJxVd" =
      String.mk ((splitDash ("common-03-sxQZ6yqTn0czJxVd").toList).getLastD []) :=
  c6_identifier_resolution.1 "common-03-sxQZ6yqTn0czJxVd" (by decide) (by decide)

/-- C7: an explicit type tag present in the fixed table always wins
(regardless of the attribute tree), the structural heuristics are checked
in the fixed order hit-points, traditions, prerequisites, price, and the
pack-name heuristic is consulted exactly when the tag and every
structural heuristic fail, i.e. when the record classifies as `autre`. -/
theorem c7_classifier_precedence :
    (∀ (entry : RawItem) (v : String), lookupStr TYPE_MAP entry.type = some v →
      detect_type_from_entry entry = v) ∧
    (∀ entry : RawItem, lookupStr TYPE_MAP entry.type = none →
      (pyIn "attributes" entry.system &&
        pyIn "hp" (jGetD entry.system "attributes" (JsonVal.obj []))) = true →
      detect_type_from_entry entry = "créature") ∧
    (∀ entry : RawItem, lookupStr TYPE_MAP entry.type = none →
      (pyIn "attributes" entry.system &&
        pyIn "hp" (jGetD entry.system "attributes" (JsonVal.obj []))) = false →
      pyIn "traditions" entry.system = true →
      detect_type_from_entry entry = "sort") ∧
    (∀ entry : RawItem, lookupStr TYPE_MAP entry.type = none →
      (pyIn "attributes" entry.system &&
        pyIn "hp" (jGetD entry.system "attributes" (JsonVal.obj []))) = false →
      pyIn "traditions" entry.system = false →
      pyIn "prerequisites" entry.system = true →
      detect_type_from_entry entry = "don") ∧
    (∀ entry : RawItem, lookupStr TYPE_MAP entry.type = none →
      (pyIn "attributes" entry.system &&
        pyIn "hp" (jGetD entry.system "attributes" (JsonVal.obj []))) = false →
      pyIn "traditions" entry.system = false →
      pyIn "prerequisites" entry.system = false →
      pyIn "price" entry.system = true →
      detect_type_from_entry entry = "équipement") ∧
    (∀ (entry : RawItem) (pack_name : String) (v : String),
      lookupStr TYPE_MAP entry.type = some v →
      classifyType entry pack_name = v) ∧
    (∀ (entry : RawItem) (pack_name : String),
      detect_type_from_entry entry = "autre" →
      classifyType entry pack_name = detect_type_from_pack pack_name) := by
  refine ⟨?_, ?_, ?_, ?_, ?_, ?_, ?_⟩
  · intro entry v h
    unfold detect_type_from_entry
    rw [h]
  · intro entry h hhp
    unfold detect_type_from_entry
    rw [h]
    simp only [hhp, if_true]
  · intro entry h hhp htr
    unfold detect_type_from_entry
    rw [h]
    simp only [hhp, htr, Bool.false_eq_true, if_false, if_true]
  · intro entry h hhp htr hpr
    unfold detect_type_from_entry
    rw [h]
    simp only [hhp, htr, hpr, Bool.false_eq_true, if_false, if_true]
  · intro entry h hhp htr hpr hpc
    unfold detect_type_from_entry
    rw [h]
    simp only [hhp, htr, hpr, hpc, Bool.false_eq_true, if_false, if_true]
  · intro entry pack_name v h
    unfold classifyType
    have hd : detect_type_from_entry entry = v := by
      unfold detect_type_from_entry
      rw [h]
    rw [hd]
    have hmem : ∃ p ∈ TYPE_MAP, p.2 = v := by
      unfold lookupStr at h
      cases hf : TYPE_MAP.find? (fun p => p.1 == entry.type) with
      | none => rw [hf] at h; simp at h
      | some p =>
        rw [hf] at h
        simp only [Option.map_some'] at h
        exact ⟨p, List.mem_of_find?_eq_some hf, Option.some.inj h⟩
    have hne : ¬ v = "autre" := by
      obtain ⟨p, hp, hpv⟩ := hmem
      have hall : TYPE_MAP.all (fun p => !(p.2 == "autre")) = true := by decide
      have := List.all_eq_true.mp hall p hp
      simp only [Bool.not_eq_true', beq_eq_false_iff_ne] at this
      rw [← hpv]
      exact this
    rw [if_neg (by simpa using hne)]
  · intro entry pack_name h
    unfold classifyType
    rw [h]
    rfl

/-- Witness for C7: a record tagged `spell` whose attribute tree also
satisfies the hit-points heuristic classifies as `sort`. -/
theorem c7_classifier_precedence_witness :
    detect_type_from_entry taggedItem = "sort" :=
  c7_classifier_precedence.1 taggedItem "sort" rfl

/-- C8: a query shaped like a bare identifier (16 characters,
alphanumerics plus `-`, with at least one alphanumeric) that equals the
stored identifier of a persisted row makes `search` return that row's
entry as a singleton, for every category, collection and trait filter and
every limit. -/
theorem c8_identifier_fast_path
    (q : String) (table : List Row) (et pf tf : Option String) (limit : Nat) (r : Row)
    (hlen : q.length = 16)
    (hchars : ∀ c ∈ q.toList, pyIsAlnum c = true ∨ c = '-')
    (hcore : q.toList.filter (fun c => !(c == '-')) ≠ [])
    (hfind : table.find? (fun r0 => r0.id == q) = some r) :
    search q table et pf tf limit = [r.data] := by
  have huuid : uuidLike q = true := by
    unfold uuidLike
    rw [Bool.and_eq_true]
    refine ⟨decide_eq_true (by omega), ?_⟩
    dsimp only
    rw [Bool.and_eq_true]
    constructor
    · rw [Bool.not_eq_true']
      cases hl : q.toList.filter (fun c => !(c == '-')) with
      | nil => exact absurd hl hcore
      | cons x xs => rfl
    · rw [List.all_eq_true]
      intro c hc
      rcases hchars c (List.mem_of_mem_filter hc) with h | h
      · exact h
      · exfalso
        have hkeep := List.of_mem_filter hc
        rw [h] at hkeep
        simp at hkeep
  unfold search
  rw [if_pos huuid, hfind]

/-- Witness for C8: the fast path bypasses active filters and a zero
limit on the wolf corpus. -/
theorem c8_identifier_fast_path_witness :
    search "aaaaaaaaaaaaaaa2" wolfTable (some "sort") (some "zzz") (some "zzz") 0 =
      [(rowOf wolfE2).data] :=
  c8_identifier_fast_path "aaaaaaaaaaaaaaa2" wolfTable (some "sort") (some "zzz")
    (some "zzz") 0 (rowOf wolfE2) (by decide) (by decide) (by decide) (by rfl)

/-- C9 (implicit): in the accent-insensitive path, the category filter is
compared against the raw `type` tag stored in the payload, not the
derived category: `add_entry_if_match` drops every entry whose raw tag
differs from the filter; concretely, the entry `Démon` (raw tag `npc`,
derived category `créature`) is returned without filters but not under
the category filter `créature`, while the tiered SQL path does filter on
the derived category (the `Demon` row is returned under the same
filter). -/
theorem c9_scan_filter_raw_tag :
    (∀ (et : String) (pf tf : Option String) (score : Int) (e : Entry) (st : SState),
      e.type ≠ et → addEntryIfMatch (some et) pf tf score e st = st) ∧
    search "demon" demonTable1 none none none 25 = [demonE1] ∧
    search "demon" demonTable1 (some "créature") none none 25 = [] ∧
    search "demon" demonTable2 (some "créature") none none 25 = [demonE2] := by
  refine ⟨?_, by rfl, by rfl, by rfl⟩
  intro et pf tf score e st h
  unfold addEntryIfMatch
  have htype : (match some et with | some t => !(e.type == t) | none => false) = true := by
    simp only []
    rw [Bool.not_eq_true']
    exact beq_eq_false_iff_ne.mpr h
  by_cases ht : traitOk tf e = true
  · rw [if_neg (by rw [ht]; simp), if_pos htype]
  · have ht' : traitOk tf e = false := Bool.eq_false_iff.mpr ht
    rw [if_pos (by rw [ht']; rfl)]

/-- Witness for C9: the raw-tag rejection at a concrete entry and
state. -/
theorem c9_scan_filter_raw_tag_witness :
    addEntryIfMatch (some "créature") none none 900 demonE1 ⟨[], []⟩ = ⟨[], []⟩ :=
  c9_scan_filter_raw_tag.1 "créature" none none 900 demonE1 ⟨[], []⟩ (by decide)

/-- C10 (implicit): `normalize_text` is idempotent — one pass of NFD
decomposition, combining-mark removal and lowercasing reaches a fixed
point. -/
theorem c10_normalize_idempotent (s : String) :
    normalize_text (normalize_text s) = normalize_text s :=
  congrArg String.mk (normChars_idem s.toList)

end PF2
